import Mathlib

/-!
Verification of the KNX group-address handling, import flag aggregation and
runtime synchronization logic of the `iobroker.nexowatt-knx` adapter.

The JavaScript sources (`src/lib/knx-utils.js`, `src/lib/ets-import.js`,
`src/main.js`) are shallowly embedded below.  JavaScript numbers that the
program only ever uses as integers are modelled as `Nat`/`Int`; JavaScript
strings are modelled as Lean `String` (one `Char` per UTF-16 unit of the
inputs we consider); `undefined`/`null`-able fields are modelled as `Option`.
Host primitives that live outside the repository (the JS `Number`/`Date`
constructors and the system clock) are abstracted into a `JsPrims` record.
-/

namespace NexowattKnx

/-! ### AddressCodec: `groupAddressNumberToString` (src/lib/knx-utils.js, lines 9-25) -/

/-- The addressing styles accepted by the adapter.  In the JS source the style
is the string "ThreeLevel", "TwoLevel" or "Free". -/
inductive GAStyle where
  | ThreeLevel
  | TwoLevel
  | Free
deriving DecidableEq, Repr

/-- Embedding of `groupAddressNumberToString(addr, style)`.  The JS function
first guards on non-numeric input (out of scope: the domain here is `Nat`),
masks the address to 16 bits (`addr & 0xffff`), renders `main/sub` for the
"TwoLevel" style and falls through to the `main/middle/sub` rendering for
every other style (the source comment reads `// Default: ThreeLevel`).
Template interpolation of a JS integer is decimal rendering, i.e. `Nat.repr`. -/
def groupAddressNumberToString (addr : Nat) (style : GAStyle) : String :=
  let safe := addr &&& 0xffff
  if style = GAStyle.TwoLevel then
    let mn := (safe >>> 11) &&& 0x1f
    let sub := safe &&& 0x7ff
    Nat.repr mn ++ "/" ++ Nat.repr sub
  else
    let mn := (safe >>> 11) &&& 0x1f
    let middle := (safe >>> 8) &&& 0x07
    let sub := safe &&& 0xff
    Nat.repr mn ++ "/" ++ Nat.repr middle ++ "/" ++ Nat.repr sub

/-- Decimal digit list of a natural number, most significant digit first.
This is a proof-side restatement of the fuel-based core `Nat.toDigitsCore`;
the bridge lemma `toDigitsCore_eq_natDecimal` connects the two. -/
def natDecimal (n : Nat) : List Char :=
  if _h : n < 10 then [Nat.digitChar n]
  else natDecimal (n / 10) ++ [Nat.digitChar (n % 10)]
decreasing_by exact Nat.div_lt_self (by omega) (by omega)

/-- Decimal value of a digit character list (inverse of `natDecimal`). -/
def parseDecimal (l : List Char) : Nat :=
  l.foldl (fun acc c => acc * 10 + (c.toNat - 48)) 0

/-! ### FlagAggregator: `buildFlagsByGroupAddressId` (src/lib/ets-import.js, lines 193-242)

The JS function walks `result.topology.areas[].lines[].devices[]
.communicationObjectReferences[].connectors[].{send,receive}[]` and
accumulates OR-combined flags per group-address identifier in a `Map`.
The `Map` is modelled as an insertion-ordered association list. -/

structure AccessFlags where
  readFlag : Bool
  writeFlag : Bool
  transmitFlag : Bool
  updateFlag : Bool
deriving DecidableEq, Repr

def AccessFlags.allFalse : AccessFlags := ⟨false, false, false, false⟩

/-- A send target; `groupAddressRefID` models the `__groupAddressRefID` field
(`none` when absent). -/
structure SendTarget where
  groupAddressRefID : Option String
deriving DecidableEq, Repr

/-- A receive target carries the back-reference under one of two historical
field names (`__groupAddressRefID` or the misspelled `__groupAddressRedID`). -/
structure ReceiveTarget where
  groupAddressRefID : Option String
  groupAddressRedID : Option String
deriving DecidableEq, Repr

structure Connector where
  send : List SendTarget
  receive : List ReceiveTarget
deriving DecidableEq, Repr

/-- A communication-object reference.  The flag fields are `Option Bool`
because the JS code reads them through `Boolean(cor?.x)` (absent ⇒ false);
`isActive` is only consulted through `cor.isActive === false`. -/
structure CommObjRef where
  isActive : Option Bool
  readFlag : Option Bool
  writeFlag : Option Bool
  transmitFlag : Option Bool
  updateFlag : Option Bool
  connectors : List Connector
deriving DecidableEq, Repr

structure Device where
  communicationObjectReferences : List CommObjRef
deriving DecidableEq, Repr

structure Line where
  devices : List Device
deriving DecidableEq, Repr

structure Area where
  lines : List Line
deriving DecidableEq, Repr

structure EtsProject where
  areas : List Area
deriving DecidableEq, Repr

/-- JS `Map.get`: lookup in an insertion-ordered association list. -/
def assocGet {α : Type} (m : List (String × α)) (k : String) : Option α :=
  match m with
  | [] => none
  | (k2, v) :: rest => if k2 = k then some v else assocGet rest k

/-- JS `Map.set`: replace in place, or append at the end on first sight. -/
def assocSet {α : Type} (m : List (String × α)) (k : String) (v : α) : List (String × α) :=
  match m with
  | [] => [(k, v)]
  | (k2, v2) :: rest => if k2 = k then (k2, v) :: rest else (k2, v2) :: assocSet rest k v

abbrev FlagMap := List (String × AccessFlags)

/-- JS `a || b` on possibly-absent strings (the empty string is falsy). -/
def jsOrStr (a b : Option String) : Option String :=
  match a with
  | some s => if s = "" then b else some s
  | none => b

/-- The flag record the JS code builds for one reference:
`Boolean(cor?.readFlag)` etc. -/
def corFlags (cor : CommObjRef) : AccessFlags :=
  ⟨cor.readFlag.getD false, cor.writeFlag.getD false,
   cor.transmitFlag.getD false, cor.updateFlag.getD false⟩

/-- The shared per-target body: skip when the identifier is falsy
(`if (!gaId) continue`), otherwise OR the reference flags into the
accumulated record (`agg.readFlag ||= flags.readFlag; map.set(gaId, agg)`). -/
def applyFlagsToGa (flags : AccessFlags) (gaId : Option String) (m : FlagMap) : FlagMap :=
  match gaId with
  | none => m
  | some id =>
    if id = "" then m
    else
      let agg := (assocGet m id).getD AccessFlags.allFalse
      assocSet m id
        ⟨agg.readFlag || flags.readFlag, agg.writeFlag || flags.writeFlag,
         agg.transmitFlag || flags.transmitFlag, agg.updateFlag || flags.updateFlag⟩

/-- One connector: first every send target, then every receive target
(the receive side accepts either back-reference field name). -/
def processConnector (flags : AccessFlags) (m : FlagMap) (conn : Connector) : FlagMap :=
  let m1 := conn.send.foldl (fun acc s => applyFlagsToGa flags s.groupAddressRefID acc) m
  conn.receive.foldl
    (fun acc r => applyFlagsToGa flags (jsOrStr r.groupAddressRefID r.groupAddressRedID) acc) m1

/-- One communication-object reference: skipped entirely when
`cor.isActive === false`. -/
def processCommObjRef (m : FlagMap) (cor : CommObjRef) : FlagMap :=
  if cor.isActive = some false then m
  else cor.connectors.foldl (processConnector (corFlags cor)) m

/-- Embedding of `buildFlagsByGroupAddressId(result)`. -/
def buildFlagsByGroupAddressId (p : EtsProject) : FlagMap :=
  p.areas.foldl (fun m area =>
    area.lines.foldl (fun m line =>
      line.devices.foldl (fun m device =>
        device.communicationObjectReferences.foldl processCommObjRef m) m) m) []

/-- Relation `flagsLe f g`: every flag set in `f` is still set in `g`
(per-field monotonicity order). -/
def flagsLe (f g : AccessFlags) : Prop :=
  (f.readFlag = true → g.readFlag = true) ∧
  (f.writeFlag = true → g.writeFlag = true) ∧
  (f.transmitFlag = true → g.transmitFlag = true) ∧
  (f.updateFlag = true → g.updateFlag = true)

/-- Lift of `flagsLe` to map entries: an existing entry may only grow, and
entries are never removed. -/
def optFlagsLe : Option AccessFlags → Option AccessFlags → Prop
  | none, _ => True
  | some _, none => False
  | some f, some g => flagsLe f g

/-- Concrete inactive reference used by the C3 witness. -/
def corInactive : CommObjRef :=
  ⟨some false, some true, some true, none, none, [⟨[⟨some "GA-1"⟩], []⟩]⟩

/-! ### `sanitizeIdSegment` (src/lib/knx-utils.js, lines 99-108)

The JS pipeline on a string input is
`.trim()` → `.replace(/\s+/g, '_')` → `.replace(/[^A-Za-z0-9_\-]/g, '_')`
→ `.replace(/_+/g, '_')` → `.replace(/^_+|_+$/g, '')`, and an empty result
becomes the literal "unnamed".  Each stage is embedded as a structurally
recursive function on the character list. -/

/-- The whitespace class used for `.trim()` and `/\s+/` (the common members of
the JS `\s` class; the development only needs that it is disjoint from the
safe identifier characters). -/
def jsIsWhitespace (c : Char) : Bool :=
  c = ' ' || c = '\t' || c = '\n' || c = '\r' || c = '\x0b' || c = '\x0c' || c = '\u00A0'

/-- The safe identifier class `[A-Za-z0-9_\-]`. -/
def isSafeChar (c : Char) : Bool :=
  ('A' ≤ c && c ≤ 'Z') || ('a' ≤ c && c ≤ 'z') || ('0' ≤ c && c ≤ '9') ||
    c = '_' || c = '-'

/-- Models `.trim()`: drop whitespace from both ends. -/
def jsTrimChars (l : List Char) : List Char :=
  ((l.dropWhile jsIsWhitespace).reverse.dropWhile jsIsWhitespace).reverse

/-- Global replacement of each maximal run of `p`-characters by a single
underscore; `inRun` records whether the previous character was in a run. -/
def collapseRunsAux (p : Char → Bool) (inRun : Bool) : List Char → List Char
  | [] => []
  | c :: rest =>
    if p c then
      if inRun then collapseRunsAux p true rest
      else '_' :: collapseRunsAux p true rest
    else c :: collapseRunsAux p false rest

/-- Models the stage replacing each whitespace run by one underscore. -/
def collapseWsRuns (l : List Char) : List Char := collapseRunsAux jsIsWhitespace false l

def isUnd (c : Char) : Bool := c = '_'

/-- Models the stage collapsing each underscore run to one underscore. -/
def collapseUnderscoreRuns (l : List Char) : List Char := collapseRunsAux isUnd false l

/-- Models the stage replacing every unsafe character by an underscore. -/
def mapUnsafe (l : List Char) : List Char :=
  l.map (fun c => if isSafeChar c then c else '_')

/-- Drop the maximal trailing run of underscores (`/_+$/`). -/
def dropTrailingUnderscores : List Char → List Char
  | [] => []
  | c :: rest =>
    let r := dropTrailingUnderscores rest
    if isUnd c && r.isEmpty then [] else c :: r

/-- Models the final regex stage: strip the leading and the trailing underscore run. -/
def stripEdgeUnderscores (l : List Char) : List Char :=
  dropTrailingUnderscores (l.dropWhile isUnd)

/-- The sanitization pipeline before the "unnamed" fallback. -/
def sanitizeCore (name : String) : List Char :=
  stripEdgeUnderscores (collapseUnderscoreRuns (mapUnsafe (collapseWsRuns (jsTrimChars name.data))))

/-- Embedding of `sanitizeIdSegment(name)` for string inputs (the
guard for non-string input is outside this domain). -/
def sanitizeIdSegment (name : String) : String :=
  let s := sanitizeCore name
  if s.isEmpty then "unnamed" else s.asString

/-- First character is an underscore. -/
def headIsUnd : List Char → Bool
  | [] => false
  | c :: _ => isUnd c

/-- Last character is an underscore. -/
def lastIsUnd : List Char → Bool
  | [] => false
  | [c] => isUnd c
  | _ :: rest => lastIsUnd rest

/-- No two adjacent underscores. -/
def noDouble : List Char → Bool
  | a :: b :: rest => (!(isUnd a && isUnd b)) && noDouble (b :: rest)
  | _ => true

/-! ### Value model, `dptMajor` and `coerceToKnxValue` (src/lib/knx-utils.js)

JS values reaching the adapter from the state store are modelled by `JSVal`
(numbers as integers).  Host primitives outside the repository — the JS
`Number(string)` and `new Date(string)` constructors, the clock, and
`String(Date)` — are abstracted into a `JsPrims` record; every theorem is
universally quantified over it. -/

inductive JSVal where
  | bool (b : Bool)
  | num (n : Int)
  | str (s : String)
  | date (ms : Int)
  | null
  | undef
deriving DecidableEq, Repr

structure JsPrims where
  parseNumber : String → Option Int
  parseDate : String → Option Int
  now : Int
  dateToString : Int → String

/-- Decimal value of a digit-character list (`parseInt(m, 10)` on a string of
digits). -/
def digitsToNat (l : List Char) : Nat :=
  l.foldl (fun acc c => acc * 10 + (c.toNat - 48)) 0

/-- Embedding of `dptMajor(dpt)`: `undefined`/empty input yields `undefined`,
otherwise the trimmed string must match `^(\d+)(?:\.(\d+))?$` and the major
part is returned. -/
def dptMajor (dpt : Option String) : Option Nat :=
  match dpt with
  | none => none
  | some s =>
    if s = "" then none
    else
      let t := jsTrimChars s.data
      let ds := t.takeWhile Char.isDigit
      let rest := t.dropWhile Char.isDigit
      if ds.isEmpty then none
      else
        match rest with
        | [] => some (digitsToNat ds)
        | c :: rest2 =>
          if c = '.' ∧ rest2 ≠ [] ∧ rest2.all Char.isDigit = true then
            some (digitsToNat ds)
          else none

/-- JS `Boolean(v)` truthiness on the modelled values. -/
def jsTruthy : JSVal → Bool
  | .bool b => b
  | .num n => decide (n ≠ 0)
  | .str s => decide (s ≠ "")
  | .date _ => true
  | .null => false
  | .undef => false

/-- JS `.toLowerCase()` (ASCII case mapping suffices for the token checks). -/
def jsToLowerCase (s : String) : String := (s.data.map Char.toLower).asString

def jsTrimStr (s : String) : String := (jsTrimChars s.data).asString

/-- Values handed to `knx.Datapoint.write`. -/
inductive KnxValue where
  | bool (b : Bool)
  | num (n : Int)
  | str (s : String)
  | date (ms : Int)
deriving DecidableEq, Repr

/-- JS `String(v)`. -/
def jsToString (prims : JsPrims) (v : JSVal) : String :=
  match v with
  | .bool true => "true"
  | .bool false => "false"
  | .num n => toString n
  | .str s => s
  | .date ms => prims.dateToString ms
  | .null => "null"
  | .undef => "undefined"

/-- Embedding of `coerceToKnxValue(val, dpt)`. -/
def coerceToKnxValue (prims : JsPrims) (val : JSVal) (dpt : Option String) : KnxValue :=
  let major := dptMajor dpt
  if major = some 1 then
    match val with
    | .bool b => .bool b
    | .num n => .bool (decide (n ≠ 0))
    | .str s =>
      let v := jsToLowerCase (jsTrimStr s)
      if v = "1" ∨ v = "true" ∨ v = "on" ∨ v = "yes" then .bool true
      else if v = "0" ∨ v = "false" ∨ v = "off" ∨ v = "no" then .bool false
      else .bool (jsTruthy val)
    | _ => .bool (jsTruthy val)
  else if major = some 16 then
    match val with
    | .null => .str ""
    | .undef => .str ""
    | _ => .str (jsToString prims val)
  else if major = some 19 then
    match val with
    | .date ms => .date ms
    | .num n => .date n
    | .str s =>
      match prims.parseDate s with
      | some d => .date d
      | none => .date prims.now
    | _ => .date prims.now
  else
    match val with
    | .num n => .num n
    | .bool b => .num (if b then 1 else 0)
    | .str s =>
      match prims.parseNumber s with
      | some n => .num n
      | none => .num 0
    | _ => .num 0

/-! ### SyncEngine: `onStateChange` (src/main.js, lines 469-517) -/

/-- The runtime projection stored in `metaByStateId`. -/
structure MetaRec where
  ga : String
  dpt : Option String
  flags : AccessFlags
deriving DecidableEq, Repr

/-- What the deferred closure of a queued job does when executed. -/
inductive KnxAction where
  | write (ga : String) (v : KnxValue)
  | read (ga : String)
deriving DecidableEq, Repr

structure TxJob where
  act : KnxAction
  descr : String
deriving DecidableEq, Repr

/-- The adapter state consulted by `onStateChange`: the instance namespace,
the runtime mapping, the set of bound datapoint ids and the `ackOnWrite`
configuration flag. -/
structure AdapterEnv where
  ns : String
  metaByStateId : List (String × MetaRec)
  boundDatapoints : List String
  ackOnWrite : Bool

structure JsState where
  val : JSVal
  ack : Bool
deriving DecidableEq, Repr

/-- The observable effects of one `onStateChange` call: jobs pushed onto the
transmit queue and acknowledged writes to the persisted store. -/
structure StateChangeEffects where
  enqueued : List TxJob
  storeWrites : List (String × JSVal × Bool)
deriving DecidableEq, Repr

/-- JS `s.startsWith(p)`. -/
def jsStartsWith (s p : String) : Bool := p.data.isPrefixOf s.data

/-- JS `s.slice(n)` for a non-negative index. -/
def jsSliceFrom (s : String) (n : Nat) : String := (s.data.drop n).asString

def noEffects : StateChangeEffects := ⟨[], []⟩

/-- Embedding of `onStateChange(idFull, state)`. -/
def onStateChange (prims : JsPrims) (env : AdapterEnv) (idFull : String)
    (state : Option JsState) : StateChangeEffects :=
  match state with
  | none => noEffects
  | some st =>
    if st.ack then noEffects
    else
      let pre := env.ns ++ "."
      if !jsStartsWith idFull pre then noEffects
      else
        let idRel := jsSliceFrom idFull pre.length
        if !jsStartsWith idRel "ga." then noEffects
        else
          match assocGet env.metaByStateId idRel, env.boundDatapoints.contains idRel with
          | some meta, true =>
            if meta.flags.writeFlag then
              { enqueued := [⟨KnxAction.write meta.ga (coerceToKnxValue prims st.val meta.dpt),
                  "write " ++ meta.ga⟩],
                storeWrites := if env.ackOnWrite then [(idRel, st.val, true)] else [] }
            else if meta.flags.readFlag then
              { enqueued := [⟨KnxAction.read meta.ga, "read " ++ meta.ga⟩],
                storeWrites := if env.ackOnWrite then [(idRel, st.val, true)] else [] }
            else
              { enqueued := [],
                storeWrites := if env.ackOnWrite then [(idRel, st.val, true)] else [] }
          | _, _ => noEffects

/-! ### Tx queue drain tick (src/main.js `startTxQueue`, lines 382-397)

One timer tick: return unchanged while disconnected, otherwise `shift()` the
head job and run it inside `try`/`catch`, logging a warning on failure.  The
opaque closure `job.fn` is modelled by its `KnxAction` payload plus an
executor oracle `exec` describing whether the bus call succeeds or throws. -/

structure TickResult where
  queue : List TxJob
  executed : Option TxJob
  warnLogs : List String
deriving DecidableEq, Repr

def txTick (exec : KnxAction → Except String Unit) (knxConnected : Bool)
    (txQueue : List TxJob) : TickResult :=
  if !knxConnected then ⟨txQueue, none, []⟩
  else
    match txQueue with
    | [] => ⟨[], none, []⟩
    | job :: rest =>
      match exec job.act with
      | Except.ok _ => ⟨rest, some job, []⟩
      | Except.error e => ⟨rest, some job, ["KNX TX failed (" ++ job.descr ++ "): " ++ e]⟩

/-! ### RuntimeMappingStore: `rebuildRuntimeMapping` (src/main.js, lines 275-315) -/

/-- Persisted flag record; each field may be absent. -/
structure PersistedFlags where
  readFlag : Option Bool
  writeFlag : Option Bool
  transmitFlag : Option Bool
  updateFlag : Option Bool
deriving DecidableEq, Repr

structure PersistedNative where
  ga : Option String
  dpt : Option String
  flags : Option PersistedFlags
deriving DecidableEq, Repr

structure PersistedObj where
  type : String
  native : Option PersistedNative
deriving DecidableEq, Repr

/-- One row of the `getObjectView` range scan. -/
structure DbRow where
  id : String
  doc : Option PersistedObj
deriving DecidableEq, Repr

def emptyNative : PersistedNative := ⟨none, none, none⟩

def emptyPFlags : PersistedFlags := ⟨none, none, none, none⟩

/-- Processing of a single scanned row: skip non-state objects and rows
without a truthy `native.ga`; reconstruct the `MetaRec` with `transmitFlag`
defaulting to `true` when absent and every other flag defaulting to `false`. -/
def rebuildRow (ns : String) (row : DbRow) : Option (String × MetaRec) :=
  match row.doc with
  | none => none
  | some obj =>
    if obj.type ≠ "state" then none
    else
      let native := obj.native.getD emptyNative
      match native.ga with
      | none => none
      | some ga =>
        if ga = "" then none
        else
          let idRel := if jsStartsWith row.id (ns ++ ".") then
              jsSliceFrom row.id (ns.length + 1)
            else row.id
          let pf := native.flags.getD emptyPFlags
          some (idRel,
            { ga := ga,
              dpt := match native.dpt with
                | some d => if d = "" then none else some d
                | none => none,
              flags :=
                { readFlag := pf.readFlag.getD false,
                  writeFlag := pf.writeFlag.getD false,
                  transmitFlag := pf.transmitFlag.getD true,
                  updateFlag := pf.updateFlag.getD false } })

/-- Embedding of `rebuildRuntimeMapping`: a full rebuild over the scanned
rows into the (insertion-ordered) runtime map. -/
def rebuildRuntimeMapping (ns : String) (rows : List DbRow) : List (String × MetaRec) :=
  rows.foldl (fun m row =>
    match rebuildRow ns row with
    | some (k, v) => assocSet m k v
    | none => m) []

/-- Spec-side eligibility: the row is a state object with a truthy recorded
group address. -/
def entryEligible (row : DbRow) : Prop :=
  ∃ obj, row.doc = some obj ∧ obj.type = "state" ∧
    ∃ g, (obj.native.getD emptyNative).ga = some g ∧ g ≠ ""

/-! ### `upsertGaState` (src/main.js, lines 192-228) -/

/-- Embedding of `inferCommonFromDpt(dpt)` (type, role). -/
def inferCommonFromDpt (dpt : Option String) : String × String :=
  match dptMajor dpt with
  | some 1 => ("boolean", "switch")
  | some 16 => ("string", "text")
  | some 19 => ("string", "date")
  | _ => ("number", "value")

structure ImportEntry where
  id : String
  name : String
  ga : String
  dpt : Option String
  flags : AccessFlags
  description : Option String
deriving DecidableEq, Repr

structure StateCommon where
  name : String
  type : String
  role : String
  read : Bool
  write : Bool
deriving DecidableEq, Repr

structure StateNative where
  ga : String
  dpt : Option String
  flags : AccessFlags
  description : Option String
deriving DecidableEq, Repr

/-- The `common` record written by `upsertGaState`:
`write: Boolean(entry.flags?.writeFlag || entry.flags?.readFlag)`. -/
def upsertCommon (entry : ImportEntry) : StateCommon :=
  let commonBase := inferCommonFromDpt entry.dpt
  let writeAllowed := entry.flags.writeFlag || entry.flags.readFlag
  ⟨entry.name, commonBase.1, commonBase.2, true, writeAllowed⟩

def upsertNative (entry : ImportEntry) : StateNative :=
  ⟨entry.ga, entry.dpt,
   ⟨entry.flags.readFlag, entry.flags.writeFlag,
    entry.flags.transmitFlag, entry.flags.updateFlag⟩,
   entry.description⟩

/-- The two persistence operations performed by `upsertGaState`:
`setObjectNotExistsAsync` then `extendObjectAsync`, both with the same
`common`/`native` payload. -/
inductive StoreOp where
  | createIfAbsent (id : String) (common : StateCommon) (native : StateNative)
  | extend (id : String) (common : StateCommon) (native : StateNative)
deriving DecidableEq, Repr

def StoreOp.common : StoreOp → StateCommon
  | .createIfAbsent _ c _ => c
  | .extend _ c _ => c

def upsertGaState (entry : ImportEntry) : List StoreOp :=
  [StoreOp.createIfAbsent entry.id (upsertCommon entry) (upsertNative entry),
   StoreOp.extend entry.id (upsertCommon entry) (upsertNative entry)]

/-! ### Concrete inputs for the witness theorems -/

def prims0 : JsPrims := ⟨fun _ => none, fun _ => none, 0, fun _ => ""⟩

def meta0 : MetaRec := ⟨"1/2/3", none, ⟨false, true, true, false⟩⟩

def env0 : AdapterEnv := ⟨"nexowatt-knx.0", [("ga.x", meta0)], ["ga.x"], false⟩

def st0 : JsState := ⟨JSVal.num 1, false⟩

def stAck : JsState := ⟨JSVal.num 1, true⟩

def execBoom : KnxAction → Except String Unit
  | KnxAction.read _ => Except.error "boom"
  | _ => Except.ok ()

def jobA : TxJob := ⟨KnxAction.read "1/1/1", "read 1/1/1"⟩

def jobB : TxJob := ⟨KnxAction.write "2/2/2" (KnxValue.bool true), "write 2/2/2"⟩

def obj0 : PersistedObj := ⟨"state", some ⟨some "1/2/3", none, none⟩⟩

def row0 : DbRow := ⟨"nexowatt-knx.0.ga.kitchen.1_2_3", some obj0⟩

def meta0r : MetaRec := ⟨"1/2/3", none, ⟨false, false, true, false⟩⟩

def entry0 : ImportEntry :=
  ⟨"ga._manual.1_2_3", "Lamp", "1/2/3", none, ⟨true, false, true, false⟩, none⟩

-- ===== THEOREMS =====

/-! ### Decimal rendering facts -/

theorem toDigitsCore_eq_natDecimal :
    ∀ (f n : Nat) (acc : List Char), n < f →
      Nat.toDigitsCore 10 f n acc = natDecimal n ++ acc := by
  intro f
  induction f with
  | zero => intro n acc h; omega
  | succ f ih =>
    intro n acc h
    simp only [Nat.toDigitsCore]
    by_cases h0 : n / 10 = 0
    · have hn : n < 10 := by omega
      rw [if_pos h0, natDecimal]
      simp [hn, Nat.mod_eq_of_lt hn]
    · have hge : 10 ≤ n := by
        by_contra hlt
        exact h0 (Nat.div_eq_of_lt (by omega))
      have hdiv : n / 10 < f := by
        have h1 : n / 10 < n := Nat.div_lt_self (by omega) (by omega)
        omega
      rw [if_neg h0, ih (n / 10) _ hdiv]
      conv_rhs => rw [natDecimal]
      have hnl : ¬n < 10 := by omega
      simp [hnl]

theorem repr_eq_natDecimal (n : Nat) : Nat.repr n = (natDecimal n).asString := by
  unfold Nat.repr Nat.toDigits
  rw [toDigitsCore_eq_natDecimal (n + 1) n [] (Nat.lt_succ_self n)]
  simp

theorem digitChar_val : ∀ d, d < 10 → (Nat.digitChar d).toNat - 48 = d := by decide

theorem digitChar_isDigit : ∀ d, d < 10 → (Nat.digitChar d).isDigit = true := by decide

theorem parseDecimal_natDecimal (n : Nat) : parseDecimal (natDecimal n) = n := by
  induction n using Nat.strong_induction_on with
  | _ n ih =>
    rw [natDecimal]
    by_cases h : n < 10
    · simp only [h, dite_true]
      show 0 * 10 + ((Nat.digitChar n).toNat - 48) = n
      rw [digitChar_val n h]
      omega
    · simp only [h, dite_false]
      have hlt : n / 10 < n := Nat.div_lt_self (by omega) (by omega)
      have hrec := ih (n / 10) hlt
      unfold parseDecimal at hrec ⊢
      rw [List.foldl_append, hrec]
      simp only [List.foldl_cons, List.foldl_nil]
      rw [digitChar_val (n % 10) (Nat.mod_lt n (by omega))]
      omega

theorem natDecimal_injective {m n : Nat} (h : natDecimal m = natDecimal n) : m = n := by
  rw [← parseDecimal_natDecimal m, ← parseDecimal_natDecimal n, h]

theorem natDecimal_all_digits (n : Nat) : ∀ c ∈ natDecimal n, c.isDigit = true := by
  induction n using Nat.strong_induction_on with
  | _ n ih =>
    rw [natDecimal]
    by_cases h : n < 10
    · simp only [h, dite_true, List.mem_singleton]
      intro c hc
      subst hc
      exact digitChar_isDigit n h
    · simp only [h, dite_false, List.mem_append, List.mem_singleton]
      intro c hc
      rcases hc with hc | hc
      · exact ih (n / 10) (Nat.div_lt_self (by omega) (by omega)) c hc
      · subst hc
        exact digitChar_isDigit (n % 10) (Nat.mod_lt n (by omega))

theorem natDecimal_no_slash (n : Nat) : ∀ c ∈ natDecimal n, c ≠ '/' := by
  intro c hc habs
  have := natDecimal_all_digits n c hc
  subst habs
  simp [Char.isDigit] at this

theorem sep_split :
    ∀ (x1 : List Char) (y1 : List Char) (x2 : List Char) (y2 : List Char),
      (∀ c ∈ x1, c ≠ '/') → (∀ c ∈ x2, c ≠ '/') →
      x1 ++ '/' :: y1 = x2 ++ '/' :: y2 → x1 = x2 ∧ y1 = y2 := by
  intro x1
  induction x1 with
  | nil =>
    intro y1 x2 y2 _ hx2 h
    cases x2 with
    | nil => simpa using h
    | cons c rest =>
      simp only [List.nil_append, List.cons_append, List.cons.injEq] at h
      exact absurd h.1.symm (hx2 c (by simp))
  | cons c rest ih =>
    intro y1 x2 y2 hx1 hx2 h
    cases x2 with
    | nil =>
      simp only [List.cons_append, List.nil_append, List.cons.injEq] at h
      exact absurd h.1 (hx1 c (by simp))
    | cons c2 rest2 =>
      simp only [List.cons_append, List.cons.injEq] at h
      obtain ⟨hc, hrest⟩ := h
      obtain ⟨he, hy⟩ := ih y1 rest2 y2 (fun d hd => hx1 d (by simp [hd]))
        (fun d hd => hx2 d (by simp [hd])) hrest
      exact ⟨by simp [hc, he], hy⟩

theorem land_ffff {a : Nat} (ha : a < 65536) : a &&& 0xffff = a := by
  have h2 : a < 2 ^ 16 := by norm_num; omega
  calc a &&& 0xffff = a &&& (2 ^ 16 - 1) := by norm_num
    _ = a := Nat.and_pow_two_sub_one_of_lt_two_pow h2

theorem mask_main {a : Nat} (ha : a < 65536) : (a >>> 11) &&& 0x1f = a / 2048 := by
  rw [Nat.shiftRight_eq_div_pow]
  have h32 : a / 2 ^ 11 < 2 ^ 5 := by norm_num; omega
  calc a / 2 ^ 11 &&& 0x1f = a / 2 ^ 11 &&& (2 ^ 5 - 1) := by norm_num
    _ = a / 2 ^ 11 := Nat.and_pow_two_sub_one_of_lt_two_pow h32
    _ = a / 2048 := by norm_num

theorem mask_sub11 (a : Nat) : a &&& 0x7ff = a % 2048 := by
  calc a &&& 0x7ff = a &&& (2 ^ 11 - 1) := by norm_num
    _ = a % 2 ^ 11 := Nat.and_pow_two_sub_one_eq_mod a 11
    _ = a % 2048 := by norm_num

theorem mask_middle (a : Nat) : (a >>> 8) &&& 0x07 = a / 256 % 8 := by
  rw [Nat.shiftRight_eq_div_pow]
  calc a / 2 ^ 8 &&& 0x07 = a / 2 ^ 8 &&& (2 ^ 3 - 1) := by norm_num
    _ = a / 2 ^ 8 % 2 ^ 3 := Nat.and_pow_two_sub_one_eq_mod _ 3
    _ = a / 256 % 8 := by norm_num

theorem mask_sub8 (a : Nat) : a &&& 0xff = a % 256 := by
  calc a &&& 0xff = a &&& (2 ^ 8 - 1) := by norm_num
    _ = a % 2 ^ 8 := Nat.and_pow_two_sub_one_eq_mod a 8
    _ = a % 256 := by norm_num

theorem encode_twoLevel {a : Nat} (ha : a < 65536) :
    groupAddressNumberToString a GAStyle.TwoLevel =
      Nat.repr (a / 2048) ++ "/" ++ Nat.repr (a % 2048) := by
  have hu : groupAddressNumberToString a GAStyle.TwoLevel =
      Nat.repr (((a &&& 0xffff) >>> 11) &&& 0x1f) ++ "/" ++
        Nat.repr ((a &&& 0xffff) &&& 0x7ff) := rfl
  rw [hu, land_ffff ha, mask_main ha, mask_sub11]

theorem encode_threeLevel {a : Nat} (ha : a < 65536) :
    groupAddressNumberToString a GAStyle.ThreeLevel =
      Nat.repr (a / 2048) ++ "/" ++ Nat.repr (a / 256 % 8) ++ "/" ++ Nat.repr (a % 256) := by
  have hu : groupAddressNumberToString a GAStyle.ThreeLevel =
      Nat.repr (((a &&& 0xffff) >>> 11) &&& 0x1f) ++ "/" ++
        Nat.repr (((a &&& 0xffff) >>> 8) &&& 0x07) ++ "/" ++
        Nat.repr ((a &&& 0xffff) &&& 0xff) := rfl
  rw [hu, land_ffff ha, mask_main ha, mask_middle, mask_sub8]

theorem repr_pair_inj {m1 s1 m2 s2 : Nat}
    (h : Nat.repr m1 ++ "/" ++ Nat.repr s1 = Nat.repr m2 ++ "/" ++ Nat.repr s2) :
    m1 = m2 ∧ s1 = s2 := by
  rw [repr_eq_natDecimal m1, repr_eq_natDecimal s1, repr_eq_natDecimal m2,
    repr_eq_natDecimal s2] at h
  have hd : natDecimal m1 ++ '/' :: natDecimal s1 = natDecimal m2 ++ '/' :: natDecimal s2 := by
    have hc := congrArg String.data h
    simpa [List.asString, List.append_assoc] using hc
  obtain ⟨h1, h2⟩ :=
    sep_split _ _ _ _ (natDecimal_no_slash m1) (natDecimal_no_slash m2) hd
  exact ⟨natDecimal_injective h1, natDecimal_injective h2⟩

theorem repr_triple_inj {m1 d1 s1 m2 d2 s2 : Nat}
    (h : Nat.repr m1 ++ "/" ++ Nat.repr d1 ++ "/" ++ Nat.repr s1
       = Nat.repr m2 ++ "/" ++ Nat.repr d2 ++ "/" ++ Nat.repr s2) :
    m1 = m2 ∧ d1 = d2 ∧ s1 = s2 := by
  rw [repr_eq_natDecimal m1, repr_eq_natDecimal d1, repr_eq_natDecimal s1,
    repr_eq_natDecimal m2, repr_eq_natDecimal d2, repr_eq_natDecimal s2] at h
  have hd : natDecimal m1 ++ '/' :: (natDecimal d1 ++ '/' :: natDecimal s1)
      = natDecimal m2 ++ '/' :: (natDecimal d2 ++ '/' :: natDecimal s2) := by
    have hc := congrArg String.data h
    simpa [List.asString, List.append_assoc] using hc
  obtain ⟨h1, hrest⟩ :=
    sep_split _ _ _ _ (natDecimal_no_slash m1) (natDecimal_no_slash m2) hd
  obtain ⟨h2, h3⟩ :=
    sep_split _ _ _ _ (natDecimal_no_slash d1) (natDecimal_no_slash d2) hrest
  exact ⟨natDecimal_injective h1, natDecimal_injective h2, natDecimal_injective h3⟩

/-- C1: for addresses in `[0, 65535]` and the `TwoLevel` / `ThreeLevel` styles,
the string produced by `groupAddressNumberToString` uniquely determines the
address, i.e. encoding is injective per style. -/
theorem groupAddressNumberToString_injective (a b : Nat) (ha : a < 65536) (hb : b < 65536)
    (style : GAStyle) (hstyle : style = GAStyle.TwoLevel ∨ style = GAStyle.ThreeLevel)
    (h : groupAddressNumberToString a style = groupAddressNumberToString b style) : a = b := by
  rcases hstyle with rfl | rfl
  · rw [encode_twoLevel ha, encode_twoLevel hb] at h
    obtain ⟨h1, h2⟩ := repr_pair_inj h
    omega
  · rw [encode_threeLevel ha, encode_threeLevel hb] at h
    obtain ⟨h1, h2, h3⟩ := repr_triple_inj h
    omega

/-- Witness for C1 at the concrete address 1234 in TwoLevel style. -/
theorem groupAddressNumberToString_injective_witness : (1234 : Nat) = 1234 :=
  groupAddressNumberToString_injective 1234 1234 (by decide) (by decide)
    GAStyle.TwoLevel (Or.inl rfl) rfl

/-- C2 counterexample: at address 5, the `Free` style does not return the raw
decimal rendering `"5"`; it falls through to the ThreeLevel branch. -/
theorem groupAddressNumberToString_free_counterexample :
    ¬(groupAddressNumberToString 5 GAStyle.Free = "5") := by decide

/-- Shows what the code actually returns for the `Free` style at address 5. -/
theorem groupAddressNumberToString_free_at_five :
    groupAddressNumberToString 5 GAStyle.Free = "0/0/5" := by decide

/-- C2 amended: for every address the `Free` style renders exactly like
`ThreeLevel`, because the source only tests for "TwoLevel" and otherwise
falls through to the default ThreeLevel decomposition. -/
theorem groupAddressNumberToString_free_eq_threeLevel (a : Nat) :
    groupAddressNumberToString a GAStyle.Free = groupAddressNumberToString a GAStyle.ThreeLevel :=
  rfl

/-! ### C3: flag aggregation is monotone and inactive references are no-ops -/

theorem flagsLe_refl (f : AccessFlags) : flagsLe f f :=
  ⟨id, id, id, id⟩

theorem flagsLe_trans {f g h : AccessFlags} (h1 : flagsLe f g) (h2 : flagsLe g h) :
    flagsLe f h :=
  ⟨fun x => h2.1 (h1.1 x), fun x => h2.2.1 (h1.2.1 x),
   fun x => h2.2.2.1 (h1.2.2.1 x), fun x => h2.2.2.2 (h1.2.2.2 x)⟩

theorem optFlagsLe_refl (o : Option AccessFlags) : optFlagsLe o o := by
  cases o with
  | none => trivial
  | some f => exact flagsLe_refl f

theorem optFlagsLe_trans {o1 o2 o3 : Option AccessFlags}
    (h1 : optFlagsLe o1 o2) (h2 : optFlagsLe o2 o3) : optFlagsLe o1 o3 := by
  cases o1 with
  | none => trivial
  | some f =>
    cases o2 with
    | none => exact absurd h1 (by simp [optFlagsLe])
    | some g =>
      cases o3 with
      | none => exact absurd h2 (by simp [optFlagsLe])
      | some h => exact flagsLe_trans h1 h2

theorem assocGet_assocSet {α : Type} (m : List (String × α)) (k k2 : String) (v : α) :
    assocGet (assocSet m k2 v) k = if k2 = k then some v else assocGet m k := by
  induction m with
  | nil => simp [assocGet, assocSet]
  | cons p rest ih =>
    obtain ⟨k3, v3⟩ := p
    by_cases h32 : k3 = k2
    · subst h32
      by_cases h3k : k3 = k
      · subst h3k
        simp [assocGet, assocSet]
      · simp [assocGet, assocSet, h3k]
    · by_cases h3k : k3 = k
      · subst h3k
        have : ¬k2 = k3 := fun he => h32 he.symm
        simp [assocGet, assocSet, h32, this]
      · simp [assocGet, assocSet, h32, h3k, ih]

theorem applyFlagsToGa_mono (flags : AccessFlags) (gaId : Option String) (m : FlagMap)
    (k : String) : optFlagsLe (assocGet m k) (assocGet (applyFlagsToGa flags gaId m) k) := by
  cases gaId with
  | none => exact optFlagsLe_refl _
  | some id =>
    by_cases hid : id = ""
    · simp only [applyFlagsToGa, hid, if_pos rfl]
      exact optFlagsLe_refl _
    · simp only [applyFlagsToGa, if_neg hid]
      rw [assocGet_assocSet]
      by_cases hk : id = k
      · subst hk
        rw [if_pos rfl]
        cases hget : assocGet m id with
        | none => trivial
        | some agg =>
          simp only [Option.getD_some]
          refine ⟨fun h => ?_, fun h => ?_, fun h => ?_, fun h => ?_⟩ <;> simp [h]
      · rw [if_neg hk]
        exact optFlagsLe_refl _

theorem foldl_optFlagsLe {α : Type} (f : FlagMap → α → FlagMap)
    (hf : ∀ m x k, optFlagsLe (assocGet m k) (assocGet (f m x) k)) :
    ∀ (l : List α) (m : FlagMap) (k : String),
      optFlagsLe (assocGet m k) (assocGet (l.foldl f m) k) := by
  intro l
  induction l with
  | nil => intro m k; exact optFlagsLe_refl _
  | cons x xs ih =>
    intro m k
    rw [List.foldl_cons]
    exact optFlagsLe_trans (hf m x k) (ih (f m x) k)

theorem processConnector_mono (flags : AccessFlags) (m : FlagMap) (conn : Connector)
    (k : String) : optFlagsLe (assocGet m k) (assocGet (processConnector flags m conn) k) := by
  unfold processConnector
  refine optFlagsLe_trans
    (foldl_optFlagsLe _ (fun m' s k' => applyFlagsToGa_mono flags s.groupAddressRefID m' k')
      conn.send m k)
    (foldl_optFlagsLe _
      (fun m' r k' => applyFlagsToGa_mono flags (jsOrStr r.groupAddressRefID r.groupAddressRedID) m' k')
      conn.receive _ k)

/-- C3: processing one additional communication-object reference is monotone
per aggregated flag field (an entry can only gain `true` flags, never lose
one), and a reference whose `isActive` field is explicitly `false` leaves the
flag map completely unchanged. -/
theorem processCommObjRef_monotone_and_inactive (cor : CommObjRef) (m : FlagMap) :
    (∀ k, optFlagsLe (assocGet m k) (assocGet (processCommObjRef m cor) k)) ∧
    (cor.isActive = some false → processCommObjRef m cor = m) := by
  constructor
  · intro k
    unfold processCommObjRef
    split
    · exact optFlagsLe_refl _
    · exact foldl_optFlagsLe _ (fun m' conn k' => processConnector_mono (corFlags cor) m' conn k')
        cor.connectors m k
  · intro h
    unfold processCommObjRef
    rw [if_pos h]

/-- Witness for C3: a concrete explicitly-inactive reference leaves the empty
map unchanged, and the step is monotone at the concrete key `"GA-1"`. -/
theorem processCommObjRef_monotone_and_inactive_witness :
    processCommObjRef [] corInactive = [] ∧
    optFlagsLe (assocGet ([] : FlagMap) "GA-1")
      (assocGet (processCommObjRef [] corInactive) "GA-1") :=
  ⟨(processCommObjRef_monotone_and_inactive corInactive []).2 rfl,
   (processCommObjRef_monotone_and_inactive corInactive []).1 "GA-1"⟩

/-! ### C8/C9: sanitization output shape and idempotence -/

theorem safe_not_ws {c : Char} (h : isSafeChar c = true) : jsIsWhitespace c = false := by
  by_contra h2
  rw [Bool.not_eq_false] at h2
  simp only [jsIsWhitespace, Bool.or_eq_true, decide_eq_true_eq] at h2
  rcases h2 with (((((rfl | rfl) | rfl) | rfl) | rfl) | rfl) | rfl <;>
    exact absurd h (by decide)

theorem underscore_safe : isSafeChar '_' = true := by decide

theorem mem_collapseRunsAux {p : Char → Bool} {c : Char} :
    ∀ (l : List Char) (b : Bool), c ∈ collapseRunsAux p b l → c ∈ l ∨ c = '_' := by
  intro l
  induction l with
  | nil => intro b h; simp [collapseRunsAux] at h
  | cons hd tl ih =>
    intro b h
    simp only [collapseRunsAux] at h
    by_cases hp : p hd
    · rw [if_pos hp] at h
      cases b with
      | true =>
        rcases ih true h with hm | he
        · exact Or.inl (List.mem_cons_of_mem hd hm)
        · exact Or.inr he
      | false =>
        rcases List.mem_cons.mp h with he | hm
        · exact Or.inr he
        · rcases ih true hm with hm2 | he2
          · exact Or.inl (List.mem_cons_of_mem hd hm2)
          · exact Or.inr he2
    · rw [if_neg hp] at h
      rcases List.mem_cons.mp h with he | hm
      · exact Or.inl (he ▸ List.mem_cons_self hd tl)
      · rcases ih false hm with hm2 | he2
        · exact Or.inl (List.mem_cons_of_mem hd hm2)
        · exact Or.inr he2

theorem mem_dropTrailingUnderscores {c : Char} :
    ∀ l : List Char, c ∈ dropTrailingUnderscores l → c ∈ l := by
  intro l
  induction l with
  | nil => intro h; simp [dropTrailingUnderscores] at h
  | cons hd tl ih =>
    intro h
    simp only [dropTrailingUnderscores] at h
    split at h
    · simp at h
    · rcases List.mem_cons.mp h with he | hm
      · exact he ▸ List.mem_cons_self hd tl
      · exact List.mem_cons_of_mem hd (ih hm)

theorem mem_mapUnsafe {c : Char} (l : List Char) (h : c ∈ mapUnsafe l) :
    isSafeChar c = true := by
  simp only [mapUnsafe, List.mem_map] at h
  obtain ⟨d, _, hd⟩ := h
  by_cases hs : isSafeChar d
  · rw [if_pos hs] at hd; exact hd ▸ hs
  · rw [if_neg hs] at hd; exact hd ▸ underscore_safe

theorem mem_sanitizeCore_safe (name : String) :
    ∀ c ∈ sanitizeCore name, isSafeChar c = true := by
  intro c hc
  unfold sanitizeCore stripEdgeUnderscores at hc
  have h1 := mem_dropTrailingUnderscores _ hc
  have h2 : c ∈ collapseUnderscoreRuns (mapUnsafe (collapseWsRuns (jsTrimChars name.data))) :=
    (List.dropWhile_sublist _).mem h1
  rcases mem_collapseRunsAux _ _ h2 with h3 | he
  · exact mem_mapUnsafe _ h3
  · exact he ▸ underscore_safe

theorem sanitizeIdSegment_eq_asString {name : String} (h : sanitizeCore name ≠ []) :
    sanitizeIdSegment name = (sanitizeCore name).asString := by
  unfold sanitizeIdSegment
  cases hl : sanitizeCore name with
  | nil => exact absurd hl h
  | cons a as => simp

/-- C8: for every input string, `sanitizeIdSegment` returns a non-empty string
all of whose characters lie in the safe identifier class `[A-Za-z0-9_\-]`;
when the sanitization pipeline yields the empty string the literal
`"unnamed"` is returned instead. -/
theorem sanitizeIdSegment_safe_nonempty (name : String) :
    sanitizeIdSegment name ≠ "" ∧
    (∀ c ∈ (sanitizeIdSegment name).data, isSafeChar c = true) ∧
    (sanitizeCore name = [] → sanitizeIdSegment name = "unnamed") := by
  by_cases h : sanitizeCore name = []
  · have h1 : sanitizeIdSegment name = "unnamed" := by
      unfold sanitizeIdSegment
      rw [h]
      rfl
    refine ⟨by rw [h1]; decide, ?_, fun _ => h1⟩
    rw [h1]
    decide
  · have h1 := sanitizeIdSegment_eq_asString h
    refine ⟨?_, ?_, fun he => absurd he h⟩
    · rw [h1]
      intro he
      apply h
      have := congrArg String.data he
      simpa [List.asString] using this
    · rw [h1]
      intro c hc
      have : c ∈ sanitizeCore name := by simpa [List.asString] using hc
      exact mem_sanitizeCore_safe name c this

/-- Witness for C8: the fallback fires at `"!!!"` and the safety bound holds
at a concrete character of a concrete sanitized output. -/
theorem sanitizeIdSegment_safe_nonempty_witness :
    sanitizeIdSegment "!!!" = "unnamed" ∧ isSafeChar 'a' = true :=
  ⟨(sanitizeIdSegment_safe_nonempty "!!!").2.2 rfl,
   (sanitizeIdSegment_safe_nonempty "a").2.1 'a' (by decide)⟩

theorem noDouble_cons_tail {a : Char} {l : List Char} (h : noDouble (a :: l) = true) :
    noDouble l = true := by
  cases l with
  | nil => rfl
  | cons b rest =>
    simp only [noDouble, Bool.and_eq_true] at h
    exact h.2

theorem noDouble_cons_head {a : Char} {l : List Char} (h : noDouble (a :: l) = true)
    (hh : headIsUnd l = true) : isUnd a = false := by
  cases l with
  | nil => simp [headIsUnd] at hh
  | cons b rest =>
    simp only [headIsUnd] at hh
    simp only [noDouble, Bool.and_eq_true, Bool.not_eq_true'] at h
    rcases Bool.and_eq_false_iff.mp h.1 with ha | hb
    · exact ha
    · rw [hh] at hb; cases hb

theorem noDouble_cons_of {a : Char} {l : List Char} (h : noDouble l = true)
    (hh : headIsUnd l = true → isUnd a = false) : noDouble (a :: l) = true := by
  cases l with
  | nil => rfl
  | cons b rest =>
    simp only [noDouble, Bool.and_eq_true, Bool.not_eq_true']
    refine ⟨?_, h⟩
    by_cases hb : isUnd b = true
    · rw [hh hb]
      rfl
    · rw [Bool.not_eq_true] at hb
      rw [hb, Bool.and_false]

theorem collapseRunsAux_cons (p : Char → Bool) (b : Bool) (c : Char) (l : List Char) :
    collapseRunsAux p b (c :: l) =
      if p c then
        (if b then collapseRunsAux p true l else '_' :: collapseRunsAux p true l)
      else c :: collapseRunsAux p false l := rfl

theorem headIsUnd_collapseUnd_true :
    ∀ l : List Char, headIsUnd (collapseRunsAux isUnd true l) = false := by
  intro l
  induction l with
  | nil => rfl
  | cons hd tl ih =>
    rw [collapseRunsAux_cons]
    by_cases hp : isUnd hd = true
    · rw [if_pos hp, if_pos rfl]
      exact ih
    · have hp2 : isUnd hd = false := by rwa [Bool.not_eq_true] at hp
      rw [if_neg hp]
      simp [headIsUnd, hp2]

theorem noDouble_collapseUnd :
    ∀ (l : List Char) (b : Bool), noDouble (collapseRunsAux isUnd b l) = true := by
  intro l
  induction l with
  | nil => intro b; rfl
  | cons hd tl ih =>
    intro b
    rw [collapseRunsAux_cons]
    by_cases hp : isUnd hd = true
    · rw [if_pos hp]
      cases b with
      | true =>
        rw [if_pos rfl]
        exact ih true
      | false =>
        rw [if_neg (by decide : ¬(false = true))]
        refine noDouble_cons_of (ih true) (fun hh => ?_)
        rw [headIsUnd_collapseUnd_true tl] at hh
        cases hh
    · have hp2 : isUnd hd = false := by rwa [Bool.not_eq_true] at hp
      rw [if_neg hp]
      exact noDouble_cons_of (ih false) (fun _ => hp2)

theorem collapseUnd_eq_self :
    ∀ l : List Char, noDouble l = true →
      collapseRunsAux isUnd false l = l ∧
      (headIsUnd l = false → collapseRunsAux isUnd true l = l) := by
  intro l
  induction l with
  | nil => exact fun _ => ⟨rfl, fun _ => rfl⟩
  | cons hd tl ih =>
    intro h
    have htl := noDouble_cons_tail h
    obtain ⟨ih1, ih2⟩ := ih htl
    by_cases hp : isUnd hd = true
    · have hhd : hd = '_' := by simpa [isUnd] using hp
      have hhtl : headIsUnd tl = false := by
        by_contra hcon
        rw [Bool.not_eq_false] at hcon
        rw [noDouble_cons_head h hcon] at hp
        cases hp
      constructor
      · rw [collapseRunsAux_cons, if_pos hp, if_neg (by decide : ¬(false = true)),
          ih2 hhtl, hhd]
      · intro hfalse
        exfalso
        simp only [headIsUnd] at hfalse
        rw [hp] at hfalse
        exact Bool.noConfusion hfalse
    · constructor
      · rw [collapseRunsAux_cons, if_neg hp, ih1]
      · intro _
        rw [collapseRunsAux_cons, if_neg hp, ih1]

theorem lastIsUnd_cons_cons (a b : Char) (l : List Char) :
    lastIsUnd (a :: b :: l) = lastIsUnd (b :: l) := rfl

theorem dropTrailingUnderscores_cons (c : Char) (l : List Char) :
    dropTrailingUnderscores (c :: l) =
      if isUnd c && (dropTrailingUnderscores l).isEmpty then []
      else c :: dropTrailingUnderscores l := rfl

theorem lastIsUnd_cons_of {hd : Char} {x : List Char} (hx : lastIsUnd x = false)
    (hnil : x = [] → isUnd hd = false) : lastIsUnd (hd :: x) = false := by
  cases x with
  | nil =>
    have := hnil rfl
    simp only [lastIsUnd]
    exact this
  | cons a as =>
    rw [lastIsUnd_cons_cons]
    exact hx

theorem lastIsUnd_dropTrailing :
    ∀ l : List Char, lastIsUnd (dropTrailingUnderscores l) = false := by
  intro l
  induction l with
  | nil => rfl
  | cons hd tl ih =>
    rw [dropTrailingUnderscores_cons]
    by_cases hcond : (isUnd hd && (dropTrailingUnderscores tl).isEmpty) = true
    · rw [if_pos hcond]
      rfl
    · rw [if_neg hcond]
      refine lastIsUnd_cons_of ih (fun hnil => ?_)
      rw [hnil] at hcond
      simp only [List.isEmpty_nil, Bool.and_true] at hcond
      rwa [Bool.not_eq_true] at hcond

theorem headIsUnd_dropTrailing {l : List Char}
    (h : headIsUnd (dropTrailingUnderscores l) = true) : headIsUnd l = true := by
  cases l with
  | nil => simp [dropTrailingUnderscores, headIsUnd] at h
  | cons hd tl =>
    simp only [dropTrailingUnderscores] at h
    split at h
    · simp [headIsUnd] at h
    · simpa [headIsUnd] using h

theorem noDouble_dropTrailing :
    ∀ l : List Char, noDouble l = true → noDouble (dropTrailingUnderscores l) = true := by
  intro l
  induction l with
  | nil => intro _; rfl
  | cons hd tl ih =>
    intro h
    simp only [dropTrailingUnderscores]
    split
    · rfl
    · exact noDouble_cons_of (ih (noDouble_cons_tail h))
        (fun hh => noDouble_cons_head h (headIsUnd_dropTrailing hh))

theorem dropTrailing_eq_self :
    ∀ l : List Char, lastIsUnd l = false → dropTrailingUnderscores l = l := by
  intro l
  induction l with
  | nil => intro _; rfl
  | cons hd tl ih =>
    intro h
    cases tl with
    | nil =>
      simp only [lastIsUnd] at h
      simp [dropTrailingUnderscores, h]
    | cons t0 ts =>
      rw [lastIsUnd_cons_cons] at h
      have hres := ih h
      rw [dropTrailingUnderscores_cons, hres]
      rw [if_neg (by simp)]

theorem headIsUnd_dropWhile_isUnd :
    ∀ l : List Char, headIsUnd (l.dropWhile isUnd) = false := by
  intro l
  induction l with
  | nil => rfl
  | cons hd tl ih =>
    rw [List.dropWhile_cons]
    by_cases hp : isUnd hd = true
    · rw [if_pos hp]
      exact ih
    · rw [if_neg (by simpa using hp)]
      simp only [headIsUnd]
      rwa [Bool.not_eq_true] at hp

theorem noDouble_dropWhile (p : Char → Bool) :
    ∀ l : List Char, noDouble l = true → noDouble (l.dropWhile p) = true := by
  intro l
  induction l with
  | nil => intro _; rfl
  | cons hd tl ih =>
    intro h
    rw [List.dropWhile_cons]
    by_cases hp : p hd = true
    · rw [if_pos hp]
      exact ih (noDouble_cons_tail h)
    · rwa [if_neg (by simpa using hp)]

theorem headIsUnd_stripEdge (l : List Char) :
    headIsUnd (stripEdgeUnderscores l) = false := by
  cases h : headIsUnd (stripEdgeUnderscores l) with
  | false => rfl
  | true =>
    unfold stripEdgeUnderscores at h
    have := headIsUnd_dropTrailing h
    rw [headIsUnd_dropWhile_isUnd l] at this
    cases this

theorem lastIsUnd_stripEdge (l : List Char) :
    lastIsUnd (stripEdgeUnderscores l) = false :=
  lastIsUnd_dropTrailing _

theorem noDouble_stripEdge {l : List Char} (h : noDouble l = true) :
    noDouble (stripEdgeUnderscores l) = true :=
  noDouble_dropTrailing _ (noDouble_dropWhile isUnd l h)

theorem stripEdge_eq_self {l : List Char} (hh : headIsUnd l = false)
    (hl : lastIsUnd l = false) : stripEdgeUnderscores l = l := by
  unfold stripEdgeUnderscores
  have hdw : l.dropWhile isUnd = l := by
    cases l with
    | nil => rfl
    | cons hd tl =>
      simp only [headIsUnd] at hh
      rw [List.dropWhile_cons, if_neg (by simp [hh])]
  rw [hdw]
  exact dropTrailing_eq_self l hl

theorem dropWhile_eq_self_of_no_sat {p : Char → Bool} {l : List Char}
    (h : ∀ c ∈ l, p c = false) : l.dropWhile p = l := by
  cases l with
  | nil => rfl
  | cons hd tl =>
    rw [List.dropWhile_cons, if_neg (by simp [h hd (List.mem_cons_self hd tl)])]

theorem jsTrim_eq_self {l : List Char} (h : ∀ c ∈ l, jsIsWhitespace c = false) :
    jsTrimChars l = l := by
  unfold jsTrimChars
  rw [dropWhile_eq_self_of_no_sat h,
    dropWhile_eq_self_of_no_sat (fun c hc => h c (List.mem_reverse.mp hc)),
    List.reverse_reverse]

theorem collapseRunsAux_eq_self_of_no_sat {p : Char → Bool} :
    ∀ (l : List Char) (b : Bool), (∀ c ∈ l, p c = false) → collapseRunsAux p b l = l := by
  intro l
  induction l with
  | nil => intro b _; rfl
  | cons hd tl ih =>
    intro b h
    simp only [collapseRunsAux]
    rw [if_neg (by simp [h hd (List.mem_cons_self hd tl)])]
    rw [ih false (fun c hc => h c (List.mem_cons_of_mem hd hc))]

theorem mapUnsafe_eq_self {l : List Char} (h : ∀ c ∈ l, isSafeChar c = true) :
    mapUnsafe l = l := by
  unfold mapUnsafe
  induction l with
  | nil => rfl
  | cons hd tl ih =>
    rw [List.map_cons, if_pos (h hd (List.mem_cons_self hd tl)),
      ih (fun c hc => h c (List.mem_cons_of_mem hd hc))]

theorem sanitizeCore_noDouble (name : String) : noDouble (sanitizeCore name) = true :=
  noDouble_stripEdge (noDouble_collapseUnd _ false)

theorem sanitizeCore_of_sanitized (name : String) :
    sanitizeCore ((sanitizeCore name).asString) = sanitizeCore name := by
  have hsafe := mem_sanitizeCore_safe name
  have hnw : ∀ c ∈ sanitizeCore name, jsIsWhitespace c = false :=
    fun c hc => safe_not_ws (hsafe c hc)
  have step : sanitizeCore ((sanitizeCore name).asString)
      = stripEdgeUnderscores (collapseUnderscoreRuns (mapUnsafe (collapseWsRuns
          (jsTrimChars (sanitizeCore name))))) := rfl
  rw [step, jsTrim_eq_self hnw]
  rw [show collapseWsRuns (sanitizeCore name) = sanitizeCore name from
    collapseRunsAux_eq_self_of_no_sat _ false hnw]
  rw [mapUnsafe_eq_self hsafe]
  rw [show collapseUnderscoreRuns (sanitizeCore name) = sanitizeCore name from
    (collapseUnd_eq_self _ (sanitizeCore_noDouble name)).1]
  exact stripEdge_eq_self (headIsUnd_stripEdge _) (lastIsUnd_stripEdge _)

/-- C9: `sanitizeIdSegment` is idempotent. -/
theorem sanitizeIdSegment_idempotent (name : String) :
    sanitizeIdSegment (sanitizeIdSegment name) = sanitizeIdSegment name := by
  by_cases h : sanitizeCore name = []
  · have h1 : sanitizeIdSegment name = "unnamed" := by
      unfold sanitizeIdSegment
      rw [h]
      rfl
    rw [h1]
    rfl
  · have h1 := sanitizeIdSegment_eq_asString h
    rw [h1]
    have h2 : sanitizeCore ((sanitizeCore name).asString) ≠ [] := by
      rw [sanitizeCore_of_sanitized name]
      exact h
    rw [sanitizeIdSegment_eq_asString h2, sanitizeCore_of_sanitized name]

/-! ### C4/C5: the store → bus direction of `onStateChange` -/

/-- C4: an acknowledged state-change event is ignored completely — no TxJob
is enqueued and no store write is performed. -/
theorem onStateChange_ack_ignored (prims : JsPrims) (env : AdapterEnv) (idFull : String)
    (st : JsState) (h : st.ack = true) :
    (onStateChange prims env idFull (some st)).enqueued = [] ∧
    (onStateChange prims env idFull (some st)).storeWrites = [] := by
  simp [onStateChange, h, noEffects]

/-- Witness for C4 at a concrete acknowledged event. -/
theorem onStateChange_ack_ignored_witness :
    (onStateChange prims0 env0 "nexowatt-knx.0.ga.x" (some stAck)).enqueued = [] ∧
    (onStateChange prims0 env0 "nexowatt-knx.0.ga.x" (some stAck)).storeWrites = [] :=
  onStateChange_ack_ignored prims0 env0 "nexowatt-knx.0.ga.x" stAck rfl

/-- C5: for a non-acknowledged event under `ga.*` with a mapping record and a
bound datapoint, the enqueued job is a write carrying the coerced value when
the write flag is set, otherwise a read when the read flag is set, and
nothing when neither flag is set. -/
theorem onStateChange_flag_routing (prims : JsPrims) (env : AdapterEnv) (idRel : String)
    (st : JsState) (meta : MetaRec)
    (hack : st.ack = false)
    (hga : jsStartsWith idRel "ga." = true)
    (hmeta : assocGet env.metaByStateId idRel = some meta)
    (hdp : env.boundDatapoints.contains idRel = true) :
    (onStateChange prims env (env.ns ++ "." ++ idRel) (some st)).enqueued =
      (if meta.flags.writeFlag then
        [⟨KnxAction.write meta.ga (coerceToKnxValue prims st.val meta.dpt),
          "write " ++ meta.ga⟩]
      else if meta.flags.readFlag then
        [⟨KnxAction.read meta.ga, "read " ++ meta.ga⟩]
      else []) := by
  have hsw : jsStartsWith (env.ns ++ "." ++ idRel) (env.ns ++ ".") = true := by
    unfold jsStartsWith
    refine List.isPrefixOf_iff_prefix.mpr ⟨idRel.data, ?_⟩
    rw [← String.data_append]
  have hslice : jsSliceFrom (env.ns ++ "." ++ idRel) (env.ns ++ ".").length = idRel := by
    unfold jsSliceFrom
    have hd : (env.ns ++ "." ++ idRel).data = (env.ns ++ ".").data ++ idRel.data :=
      String.data_append _ _
    rw [hd]
    have hlen : (env.ns ++ ".").length = (env.ns ++ ".").data.length := rfl
    rw [hlen, List.drop_left]
    rfl
  simp only [onStateChange, hack, Bool.false_eq_true, if_false, hsw, Bool.not_true, hslice,
    hga, hmeta, hdp]
  by_cases hw : meta.flags.writeFlag = true
  · simp [hw]
  · have hw2 : meta.flags.writeFlag = false := by rwa [Bool.not_eq_true] at hw
    by_cases hr : meta.flags.readFlag = true
    · simp [hw2, hr]
    · have hr2 : meta.flags.readFlag = false := by rwa [Bool.not_eq_true] at hr
      simp [hw2, hr2]

/-- Witness for C5 at a concrete event whose record has only the write flag
relevant branch. -/
theorem onStateChange_flag_routing_witness :
    (onStateChange prims0 env0 (env0.ns ++ "." ++ "ga.x") (some st0)).enqueued =
      (if meta0.flags.writeFlag then
        [⟨KnxAction.write meta0.ga (coerceToKnxValue prims0 st0.val meta0.dpt),
          "write " ++ meta0.ga⟩]
      else if meta0.flags.readFlag then
        [⟨KnxAction.read meta0.ga, "read " ++ meta0.ga⟩]
      else []) :=
  onStateChange_flag_routing prims0 env0 "ga.x" st0 meta0 rfl rfl rfl rfl

/-! ### C6: the drain tick catches Tx failures and continues in FIFO order -/

/-- C6: when the head job throws, the tick swallows the exception (the tick is
a total function returning a result), logs the failure with the job
description, removes the job from the queue, and the following tick executes
the next job in FIFO order. -/
theorem txTick_catches_and_continues (exec : KnxAction → Except String Unit)
    (j1 j2 : TxJob) (rest : List TxJob) (e : String)
    (h : exec j1.act = Except.error e) :
    (txTick exec true (j1 :: j2 :: rest)).queue = j2 :: rest ∧
    (txTick exec true (j1 :: j2 :: rest)).warnLogs =
      ["KNX TX failed (" ++ j1.descr ++ "): " ++ e] ∧
    (txTick exec true (txTick exec true (j1 :: j2 :: rest)).queue).executed = some j2 := by
  have h1 : txTick exec true (j1 :: j2 :: rest) =
      ⟨j2 :: rest, some j1, ["KNX TX failed (" ++ j1.descr ++ "): " ++ e]⟩ := by
    simp [txTick, h]
  refine ⟨by rw [h1], by rw [h1], ?_⟩
  rw [h1]
  show (txTick exec true (j2 :: rest)).executed = some j2
  cases hres : exec j2.act <;> simp [txTick, hres]

/-- Witness for C6 with a concrete throwing job followed by a write job. -/
theorem txTick_catches_and_continues_witness :
    (txTick execBoom true (jobA :: jobB :: [])).queue = jobB :: [] ∧
    (txTick execBoom true (jobA :: jobB :: [])).warnLogs =
      ["KNX TX failed (" ++ jobA.descr ++ "): " ++ "boom"] ∧
    (txTick execBoom true (txTick execBoom true (jobA :: jobB :: [])).queue).executed =
      some jobB :=
  txTick_catches_and_continues execBoom jobA jobB [] "boom" rfl

/-! ### C7: runtime-mapping rebuild row processing -/

/-- C7: a scanned row contributes a `MappingRecord` iff it is a state object
with a truthy recorded group address, and on the reconstructed record the
transmit flag defaults to `true` when the persisted field is absent while
read, write and update default to `false` when absent. -/
theorem rebuildRow_spec (ns : String) (row : DbRow) :
    ((rebuildRow ns row).isSome ↔ entryEligible row) ∧
    (∀ i m, rebuildRow ns row = some (i, m) →
      ∀ obj, row.doc = some obj →
        ((((obj.native.getD emptyNative).flags.getD emptyPFlags).transmitFlag = none →
            m.flags.transmitFlag = true) ∧
         (((obj.native.getD emptyNative).flags.getD emptyPFlags).readFlag = none →
            m.flags.readFlag = false) ∧
         (((obj.native.getD emptyNative).flags.getD emptyPFlags).writeFlag = none →
            m.flags.writeFlag = false) ∧
         (((obj.native.getD emptyNative).flags.getD emptyPFlags).updateFlag = none →
            m.flags.updateFlag = false))) := by
  constructor
  · cases hdoc : row.doc with
    | none => simp [rebuildRow, hdoc, entryEligible]
    | some obj =>
      by_cases htype : obj.type = "state"
      · cases hga : (obj.native.getD emptyNative).ga with
        | none => simp [rebuildRow, hdoc, htype, hga, entryEligible]
        | some g =>
          by_cases hg : g = ""
          · simp [rebuildRow, hdoc, htype, hga, hg, entryEligible]
          · simp [rebuildRow, hdoc, htype, hga, hg, entryEligible]
      · simp [rebuildRow, hdoc, htype, entryEligible]
  · intro i m hm obj hdoc
    by_cases htype : obj.type = "state"
    · cases hga : (obj.native.getD emptyNative).ga with
      | none => simp [rebuildRow, hdoc, htype, hga] at hm
      | some g =>
        by_cases hg : g = ""
        · simp [rebuildRow, hdoc, htype, hga, hg] at hm
        · simp only [rebuildRow, hdoc, htype, ne_eq, not_true_eq_false, if_false, hga, hg,
            if_neg hg, Option.some.injEq, Prod.mk.injEq] at hm
          obtain ⟨-, hm2⟩ := hm
          subst hm2
          refine ⟨fun ht => ?_, fun ht => ?_, fun ht => ?_, fun ht => ?_⟩ <;> simp [ht]
    · simp [rebuildRow, hdoc, htype] at hm

/-- Witness for C7: the concrete row `row0` (a state object with a recorded
group address and no persisted flags record) contributes, and its
reconstructed record carries the defaults. -/
theorem rebuildRow_spec_witness :
    (rebuildRow "nexowatt-knx.0" row0).isSome = true ∧
    meta0r.flags.transmitFlag = true ∧ meta0r.flags.readFlag = false :=
  have h := rebuildRow_spec "nexowatt-knx.0" row0
  have hrow : rebuildRow "nexowatt-knx.0" row0 = some ("ga.kitchen.1_2_3", meta0r) := rfl
  ⟨h.1.mpr ⟨obj0, rfl, rfl, "1/2/3", rfl, by decide⟩,
   (h.2 "ga.kitchen.1_2_3" meta0r hrow obj0 rfl).1 rfl,
   (h.2 "ga.kitchen.1_2_3" meta0r hrow obj0 rfl).2.1 rfl⟩

/-! ### C10: store-level write permission of persisted GA states -/

/-- C10: both persistence operations of `upsertGaState` (create-if-absent and
extend) carry `common.write = true` iff the write flag or read flag of the entry
is set — a read-only group address still accepts store writes. -/
theorem upsertGaState_write_permission (entry : ImportEntry) :
    ∀ op ∈ upsertGaState entry,
      ((StoreOp.common op).write = true ↔
        (entry.flags.writeFlag = true ∨ entry.flags.readFlag = true)) := by
  intro op hop
  simp only [upsertGaState, List.mem_cons, List.mem_singleton, List.not_mem_nil,
    or_false] at hop
  rcases hop with rfl | rfl <;>
    simp [StoreOp.common, upsertCommon, Bool.or_eq_true]

/-- Witness for C10: an entry with only the read flag set still yields
`common.write = true` on the create operation. -/
theorem upsertGaState_write_permission_witness :
    (StoreOp.common
      (StoreOp.createIfAbsent entry0.id (upsertCommon entry0) (upsertNative entry0))).write
      = true :=
  (upsertGaState_write_permission entry0 _ (by simp [upsertGaState])).mpr (Or.inr rfl)

end NexowattKnx
